import Mathlib

set_option maxRecDepth 100000

/-!
Shallow embedding of the cell-value resolution engine and CRC16-MODBUS codec
of `crc_calc.py`.  Python dicts are modelled as association lists (newest
binding first, lookups see the newest binding, matching dict observational
semantics); Python's `eval` on the arithmetic expression strings produced by
the two regex substitution passes is modelled by a recursive-descent evaluator
over the grammar reachable in this program: decimal and `0X`-hex integer
literals, float literals, unary `+`/`-`, the binary operators `+ - * /`, and
parentheses.  Python floats are modelled as exact rationals; the only claims
exercised on the float path are exact.  Names that would resolve via `eval`'s
globals are modelled as evaluation failures, because the program uppercases
every expression before evaluation while its allowed globals are the
lowercase `abs`/`round`, so no name can ever resolve successfully.
-/

/-- Python dict with string keys, as an association list (newest first). -/
abbrev Dict (α : Type) := List (String × α)

/-- `d.get(key)`: first (newest) binding wins. -/
def dget {α : Type} : Dict α → String → Option α
  | [], _ => none
  | (k, v) :: rest, key => if k = key then some v else dget rest key

/-- `d[key] = v`: prepend a binding (shadows any older one). -/
def dset {α : Type} (d : Dict α) (k : String) (v : α) : Dict α := (k, v) :: d

/-- Characters that Python's `str.strip()` removes. -/
def isPyWs (c : Char) : Bool :=
  c = ' ' || c = '\t' || c = '\n' || c = '\r' || c = '\x0b' || c = '\x0c'

/-- `str.strip()` on a character list. -/
def pyStrip (l : List Char) : List Char :=
  ((l.dropWhile isPyWs).reverse.dropWhile isPyWs).reverse

/-- `str.upper()` on a character list (ASCII, as used by the program). -/
def pyUpper (l : List Char) : List Char := l.map Char.toUpper

/-- Value of a hexadecimal digit, accepting both cases (as `int(s, 16)` does). -/
def hexVal (c : Char) : Nat :=
  if c.toNat ≤ 57 then c.toNat - 48
  else if c.toNat ≤ 70 then c.toNat - 55
  else c.toNat - 87

/-- Hexadecimal digit, either case (`0-9`, `A-F`, `a-f`). -/
def isHexC (c : Char) : Bool :=
  (48 ≤ c.toNat && c.toNat ≤ 57) || (65 ≤ c.toNat && c.toNat ≤ 70) ||
    (97 ≤ c.toNat && c.toNat ≤ 102)

/-- Uppercase hexadecimal digit (expressions are uppercased before `eval`). -/
def isHexUpper (c : Char) : Bool := c.isDigit || ('A' ≤ c && c ≤ 'F')

/-- Value of a decimal digit string. -/
def digitsVal (l : List Char) : Nat := l.foldl (fun a c => 10 * a + (c.toNat - 48)) 0

/-- Value of an uppercase hexadecimal digit string. -/
def hexValL (l : List Char) : Nat := l.foldl (fun a c => 16 * a + hexVal c) 0

/-- The characters `+ - * / # $` whose presence routes a B input to the
formula evaluator (line 110 of the source). -/
def opChar (c : Char) : Bool :=
  c = '+' || c = '-' || c = '*' || c = '/' || c = '#' || c = '$'

/-- `any(op in input_text for op in '+-*/#$')`. -/
def hasOp (l : List Char) : Bool := l.any opChar

/-! ### CRC16-MODBUS codec (source lines 14-28) -/

/-- One shift step: `crc = (crc >> 1) ^ 0xA001` when the low bit is set,
else `crc >>= 1`. -/
def crcShift (c : Nat) : Nat :=
  if c &&& 1 = 1 then (c >>> 1) ^^^ 0xA001 else c >>> 1

/-- Per-byte update: `crc ^= byte & 0xFF` then eight shift steps. -/
def crcByteStep (c b : Nat) : Nat :=
  (List.range 8).foldl (fun acc _ => crcShift acc) (c ^^^ (b &&& 0xFF))

/-- The 16-bit register after processing all bytes (seed `0xFFFF`,
final `crc &= 0xFFFF`). -/
def crcRegister (data : List Nat) : Nat :=
  (data.foldl crcByteStep 0xFFFF) &&& 0xFFFF

/-- `crc16_modbus`: low byte first for `'little'`, high byte first otherwise. -/
def crc16_modbus (data : List Nat) (order : String) : List Nat :=
  let crc := crcRegister data
  if order = "little" then [crc &&& 0x00FF, crc >>> 8] else [crc >>> 8, crc &&& 0x00FF]

/-- The spec's wording of one register step, in plain arithmetic: test the low
bit with `% 2`, shift right by one as division by two. -/
def crcShiftSpec (c : Nat) : Nat :=
  if c % 2 = 1 then (c / 2) ^^^ 0xA001 else c / 2

/-! ### Model of Python numbers and of `eval` on the reachable grammar -/

/-- A Python number: `int`, or `float` modelled as an exact rational. -/
inductive PyNum where
  | int : Int → PyNum
  | float : Rat → PyNum
deriving DecidableEq

/-- Numeric value of a Python number. -/
def PyNum.toQ : PyNum → Rat
  | .int n => (n : Rat)
  | .float q => q

/-- Python `+`: int when both operands are ints, float otherwise. -/
def pyAdd : PyNum → PyNum → PyNum
  | .int a, .int b => .int (a + b)
  | a, b => .float (a.toQ + b.toQ)

/-- Python `-` (binary). -/
def pySub : PyNum → PyNum → PyNum
  | .int a, .int b => .int (a - b)
  | a, b => .float (a.toQ - b.toQ)

/-- Python `*`. -/
def pyMul : PyNum → PyNum → PyNum
  | .int a, .int b => .int (a * b)
  | a, b => .float (a.toQ * b.toQ)

/-- Python `/`: always a float; division by zero raises (modelled as `none`). -/
def pyDiv (a b : PyNum) : Option PyNum :=
  if b.toQ = 0 then none else some (.float (a.toQ / b.toQ))

/-- Python unary `-`. -/
def pyNeg : PyNum → PyNum
  | .int n => .int (-n)
  | .float q => .float (-q)

/-- Python `round(q)` to an integer: nearest integer, ties to even. -/
def pyRound (q : Rat) : Int :=
  let f := ⌊q⌋
  let r := q - (f : Rat)
  if r < 1/2 then f else if 1/2 < r then f + 1 else if f % 2 = 0 then f else f + 1

/-- `int(round(result))`: identity on ints, banker's rounding on floats. -/
def pyRoundNum : PyNum → Int
  | .int n => n
  | .float q => pyRound q

/-- All characters are `'0'`. -/
def allZero (l : List Char) : Bool := l.all (· = '0')

/-- Fractional part of a float literal. -/
def fracVal (l : List Char) : Rat := (digitsVal l : Rat) / ((10 : Rat) ^ l.length)

/-- Parse a numeric literal: `0X` hex, a decimal integer (leading zeros only
allowed when all digits are zero, as in Python 3), or a float literal with a
decimal point. -/
def pNumber (cs : List Char) : Option (PyNum × List Char) :=
  match cs with
  | '0' :: 'X' :: rest =>
    let h := rest.takeWhile isHexUpper
    if h = [] then none else some (.int (hexValL h : Int), rest.dropWhile isHexUpper)
  | _ =>
    let d := cs.takeWhile Char.isDigit
    let r1 := cs.dropWhile Char.isDigit
    match r1 with
    | '.' :: r2 =>
      let f := r2.takeWhile Char.isDigit
      if d = [] ∧ f = [] then none
      else some (.float ((digitsVal d : Rat) + fracVal f), r2.dropWhile Char.isDigit)
    | _ =>
      if d = [] then none
      else if d.head? = some '0' ∧ ¬allZero d then none
      else some (.int (digitsVal d : Int), r1)

/-- Skip spaces inside an expression. -/
def skipWs (l : List Char) : List Char := l.dropWhile isPyWs

mutual

/-- Expression: a term followed by `+`/`-` chains. -/
def pExpr : Nat → List Char → Option (PyNum × List Char)
  | 0, _ => none
  | Nat.succ fuel, cs => do
    let (t, r) ← pTerm fuel cs
    pExprLoop fuel t r

/-- Left-associated `+`/`-` chain. -/
def pExprLoop : Nat → PyNum → List Char → Option (PyNum × List Char)
  | 0, _, _ => none
  | Nat.succ fuel, acc, cs =>
    match skipWs cs with
    | '+' :: rest => do
      let (t, r) ← pTerm fuel rest
      pExprLoop fuel (pyAdd acc t) r
    | '-' :: rest => do
      let (t, r) ← pTerm fuel rest
      pExprLoop fuel (pySub acc t) r
    | rest => some (acc, rest)

/-- Term: a factor followed by `*`/`/` chains. -/
def pTerm : Nat → List Char → Option (PyNum × List Char)
  | 0, _ => none
  | Nat.succ fuel, cs => do
    let (t, r) ← pFactor fuel cs
    pTermLoop fuel t r

/-- Left-associated `*`/`/` chain. -/
def pTermLoop : Nat → PyNum → List Char → Option (PyNum × List Char)
  | 0, _, _ => none
  | Nat.succ fuel, acc, cs =>
    match skipWs cs with
    | '*' :: rest => do
      let (t, r) ← pFactor fuel rest
      pTermLoop fuel (pyMul acc t) r
    | '/' :: rest => do
      let (t, r) ← pFactor fuel rest
      let q ← pyDiv acc t
      pTermLoop fuel q r
    | rest => some (acc, rest)

/-- Factor: unary signs, parenthesized expression, or a numeric literal. -/
def pFactor : Nat → List Char → Option (PyNum × List Char)
  | 0, _ => none
  | Nat.succ fuel, cs =>
    match skipWs cs with
    | '+' :: rest => pFactor fuel rest
    | '-' :: rest => do
      let (v, r) ← pFactor fuel rest
      some (pyNeg v, r)
    | '(' :: rest => do
      let (v, r) ← pExpr fuel rest
      match skipWs r with
      | ')' :: r2 => some (v, r2)
      | _ => none
    | rest => pNumber rest

end

/-- Model of `eval(text, restricted_namespace)` on this program's expression
strings: parse the whole text as an arithmetic expression; anything else
(malformed text, stray tokens, names, division by zero) is a failure. -/
def pyEval (cs : List Char) : Option PyNum := do
  let (v, r) ← pExpr (4 * cs.length + 4) cs
  if skipWs r = [] then some v else none

/-! ### Cell lookup and the regex substitution passes (source lines 36-99) -/

/-- `get_var_value`: `var_value_dict.get(var_name.strip().upper(), 0) & 0xFF`. -/
def get_var_value (var_name : String) (var_value_dict : Dict Nat) : Nat :=
  ((dget var_value_dict ⟨pyUpper (pyStrip var_name.data)⟩).getD 0) &&& 0xFF

/-- Decimal string of a value, as Python's `str(int)` for naturals. -/
def natDigits (n : Nat) : List Char := Nat.toDigits 10 n

/-- Scanner for `re.sub(r'(?<!0X)([AB]\d{4})', var_replace, text)`: a match is
`A` or `B` followed by exactly four digits, not immediately preceded by the two
characters `0X`; `p2`/`p1` are the two original characters before the current
position.  Matches are replaced by the decimal string of `get_var_value`. -/
def substVarsAux (ρ : Dict Nat) : Nat → List Char → Option Char → Option Char → List Char
  | 0, l, _, _ => l
  | _ + 1, [], _, _ => []
  | fuel + 1, c :: cs, p2, p1 =>
    match cs with
    | d1 :: d2 :: d3 :: d4 :: rest =>
      if (c = 'A' ∨ c = 'B') ∧ d1.isDigit ∧ d2.isDigit ∧ d3.isDigit ∧ d4.isDigit
          ∧ ¬(p2 = some '0' ∧ p1 = some 'X') then
        natDigits (get_var_value ⟨[c, d1, d2, d3, d4]⟩ ρ) ++
          substVarsAux ρ fuel rest (some d3) (some d4)
      else c :: substVarsAux ρ fuel (d1 :: d2 :: d3 :: d4 :: rest) p1 (some c)
    | cs2 => c :: substVarsAux ρ fuel cs2 p1 (some c)

/-- Substitute cell references in an expression string.  Every scanner step
consumes at least one character, so `l.length` steps always finish the scan. -/
def substVars (ρ : Dict Nat) (l : List Char) : List Char :=
  substVarsAux ρ l.length l none none

/-- The group `\(([^)]+)\)` at the current position: a nonempty run of
characters other than `)` followed by `)`; returns the inner run and the rest
after the closing parenthesis. -/
def scanInner (cs : List Char) : Option (List Char × List Char) :=
  match cs.dropWhile (· != ')') with
  | ')' :: rest =>
    if cs.takeWhile (· != ')') = [] then none else some (cs.takeWhile (· != ')'), rest)
  | _ => none

/-- Position 0 of a 16-bit value's 4-digit uppercase hex form, etc. -/
def hexDig (d : Nat) : Char :=
  if d < 10 then Char.ofNat (48 + d) else Char.ofNat (55 + d)

/-- `f"{x:04X}"` for `x < 0x10000`. -/
def toHex4 (m : Nat) : List Char :=
  [hexDig (m / 4096 % 16), hexDig (m / 256 % 16), hexDig (m / 16 % 16), hexDig (m % 16)]

/-- `parse_high_low_hex`: substitute cell references into the uppercased inner
expression, evaluate it, mask `int(round(result))` to 16 bits, format as four
uppercase hex digits, and return the decimal string of the first two digits
for `#` or of the last two for `$`; any failure yields `"0"`. -/
def parse_high_low_hex (sym : Char) (inner : List Char) (ρ : Dict Nat) : List Char :=
  let expr := substVars ρ (pyUpper inner)
  match pyEval expr with
  | none => ['0']
  | some r =>
    let m := ((pyRoundNum r) % (65536 : Int)).toNat
    let hx := toHex4 m
    if sym = '#' then natDigits (hexValL (hx.take 2)) else natDigits (hexValL (hx.drop 2))

/-- Pass 1 of `parse_b_formula`: scanner for
`re.sub(r'([#$])\(([^)]+)\)', parse_high_low_hex, text)`. -/
def pass1Aux (ρ : Dict Nat) : List Char → Nat → List Char
  | [], _ => []
  | _ :: cs, Nat.succ n => pass1Aux ρ cs n
  | c :: cs, 0 =>
    if c = '#' ∨ c = '$' then
      match cs with
      | '(' :: cs2 =>
        match scanInner cs2 with
        | some (inner, _) => parse_high_low_hex c inner ρ ++ pass1Aux ρ cs (inner.length + 2)
        | none => c :: pass1Aux ρ cs 0
      | _ => c :: pass1Aux ρ cs 0
    else c :: pass1Aux ρ cs 0

/-- Pass 1 over a whole string.  On a match the scanner emits the replacement
and skips the matched `(<inner>)` (its `inner.length + 2` characters), resuming
right after the closing parenthesis, exactly as `re.sub` resumes after a
non-overlapping match. -/
def pass1 (ρ : Dict Nat) (l : List Char) : List Char := pass1Aux ρ l 0

/-- `parse_b_formula`: pass 1 (high/low extraction), then uppercase and
substitute remaining cell references, then evaluate; an int result is masked
with `& 0xFF`, a float result is rounded then masked; any failure yields 0. -/
def parse_b_formula (formula_text : String) (ρ : Dict Nat) : Nat :=
  let t1 := pass1 ρ formula_text.data
  let t2 := substVars ρ (pyUpper t1)
  match pyEval t2 with
  | none => 0
  | some (.int n) => (n % (256 : Int)).toNat
  | some (.float q) => ((pyRound q) % (256 : Int)).toNat

/-- `int(input_text, 16) & 0xFF` on a two-character string, with `ValueError`
modelled as 0. -/
def parseHexPair (l : List Char) : Nat :=
  match l with
  | [c1, c2] => if isHexC c1 ∧ isHexC c2 then (16 * hexVal c1 + hexVal c2) &&& 0xFF else 0
  | _ => 0

/-- `parse_b_input`: strip; empty → 0; any of `+-*/#$` → formula; exactly two
characters → hex byte literal; otherwise a bare cell reference. -/
def parse_b_input (input_text : String) (ρ : Dict Nat) : Nat :=
  let t := pyStrip input_text.data
  if t = [] then 0
  else if hasOp t then parse_b_formula ⟨t⟩ ρ
  else if t.length = 2 then parseHexPair t
  else get_var_value ⟨t⟩ ρ

/-! ### Cell addressing and the fixed-point resolver (source lines 41-46, 597-623) -/

/-- `f"{n:02d}"` for the row/column indices used by the program. -/
def pad2 (n : Nat) : String := if n < 10 then "0" ++ toString n else toString n

/-- `generate_var_name`: class letter + two-digit row + two-digit column. -/
def generate_var_name (pre : String) (row_num col : Nat) : String :=
  pre ++ pad2 row_num ++ pad2 col

/-- The cell names of one class, iterated as the program does: rows in
`row_widgets` order, columns `1..cols`. -/
def gridCells (pre : String) (rows : List Nat) (cols : Nat) : List String :=
  match rows with
  | [] => []
  | r :: rest => ((List.range cols).map fun c => generate_var_name pre r (c + 1)) ++
      gridCells pre rest cols

/-- Python `str.isdigit` on ASCII text. -/
def pyIsdigit (s : String) : Bool := !s.data.isEmpty && s.data.all Char.isDigit

/-- A-cell resolution: `int(raw_text) if raw_text.isdigit() else 0`. -/
def parseDec (s : String) : Nat := if pyIsdigit s then digitsVal s.data else 0

/-- Phase 1 of `update_all_var_values`: resolve every A cell of the grid. -/
def updateA (rows : List Nat) (decCols : Nat) (raw : Dict String) (st : Dict Nat) :
    Dict Nat :=
  (gridCells "A" rows decCols).foldl
    (fun acc n => dset acc n (parseDec ((dget raw n).getD ""))) st

/-- One B cell of one round: recompute from the current snapshot, store and
flag when the value changed. -/
def bStep (raw : Dict String) (acc : Dict Nat × Bool) (n : String) : Dict Nat × Bool :=
  let raw_text := (dget raw n).getD ""
  let old_value := (dget acc.1 n).getD 0
  let new_value := parse_b_input raw_text acc.1
  if new_value ≠ old_value then (dset acc.1 n new_value, true) else acc

/-- One round over every B cell of the grid. -/
def bRound (rows : List Nat) (hexCols : Nat) (raw : Dict String) (st : Dict Nat) :
    Dict Nat × Bool :=
  (gridCells "B" rows hexCols).foldl (bStep raw) (st, false)

/-- The bounded fixed-point loop: up to `fuel` rounds, stopping after the
first round that changes nothing. -/
def bLoop (rows : List Nat) (hexCols : Nat) (raw : Dict String) :
    Nat → Dict Nat → Dict Nat
  | 0, st => st
  | Nat.succ k, st =>
    match bRound rows hexCols raw st with
    | (st2, true) => bLoop rows hexCols raw k st2
    | (st2, false) => st2

/-- `update_all_var_values`: A cells once, then at most 5 rounds over the
B cells (`max_attempts = 5`). -/
def update_all_var_values (rows : List Nat) (decCols hexCols : Nat)
    (raw : Dict String) (st : Dict Nat) : Dict Nat :=
  bLoop rows hexCols raw 5 (updateA rows decCols raw st)

/-- `on_hex_col_change` followed by `calc_all_rows`: the column count changes
and everything is recomputed; no store entry is pruned. -/
def on_hex_col_change (rows : List Nat) (decCols newHexCols : Nat)
    (raw : Dict String) (st : Dict Nat) : Dict Nat :=
  update_all_var_values rows decCols newHexCols raw st

/-- `str.startswith` on character lists. -/
def startsWithL : List Char → List Char → Bool
  | [], _ => true
  | _ :: _, [] => false
  | p :: ps, c :: cs => p == c && startsWithL ps cs

/-- `remove_calc_row`: keys of `raw_text_dict` with the removed row's `A`/`B`
prefix are popped from both stores (a resolved entry is removed only when the
raw store also has its key). -/
def remove_calc_row (row_num : Nat) (raw : Dict String) (st : Dict Nat) :
    Dict String × Dict Nat :=
  let pa := 'A' :: (pad2 row_num).data
  let pb := 'B' :: (pad2 row_num).data
  let isDel : String → Bool := fun k => startsWithL pa k.data || startsWithL pb k.data
  (raw.filter fun p => !(isDel p.1),
   st.filter fun p => !(isDel p.1 && (dget raw p.1).isSome))

/-- Current resolved value of a cell: `var_value_dict.get(name, 0)`. -/
def vget (st : Dict Nat) (n : String) : Nat := (dget st n).getD 0

/-- A string that the bare-reference branch of `parse_b_input` passes through
unchanged: already stripped and uppercase, no operator characters, not of
length two, not empty.  Every generated cell name has this shape. -/
def bareNameOK (s : String) : Prop :=
  pyStrip s.data = s.data ∧ pyUpper s.data = s.data ∧ hasOp s.data = false ∧
    s.data.length ≠ 2 ∧ s.data ≠ []

/-- The two-character uppercase hex spelling of a byte value. -/
def hexPairStr (v : Nat) : String := ⟨[hexDig (v / 16), hexDig (v % 16)]⟩

/-! ## Helper lemmas -/

theorem and255_eq_mod (x : Nat) : x &&& 255 = x % 256 := by
  have h := Nat.and_pow_two_sub_one_eq_mod x 8
  norm_num at h
  exact h

theorem and255_le (x : Nat) : x &&& 255 ≤ 255 := Nat.and_le_right

theorem and255_of_lt {x : Nat} (h : x < 256) : x &&& 255 = x := by
  rw [and255_eq_mod]
  omega

theorem get_var_value_le (s : String) (ρ : Dict Nat) : get_var_value s ρ ≤ 255 :=
  Nat.and_le_right

theorem parseHexPair_le (l : List Char) : parseHexPair l ≤ 255 := by
  unfold parseHexPair
  split
  · split
    · exact Nat.and_le_right
    · omega
  · omega

theorem emod256_toNat_le (n : Int) : (n % (256 : Int)).toNat ≤ 255 := by
  have h1 : (0 : Int) ≤ n % 256 := Int.emod_nonneg n (by norm_num)
  have h2 : n % 256 < 256 := Int.emod_lt_of_pos n (by norm_num)
  omega

theorem parse_b_formula_le (s : String) (ρ : Dict Nat) : parse_b_formula s ρ ≤ 255 := by
  unfold parse_b_formula
  cases hE : pyEval (substVars ρ (pyUpper (pass1 ρ s.data))) with
  | none => simp [hE]
  | some r =>
    cases r with
    | int n => simp only [hE]; exact emod256_toNat_le n
    | float q => simp only [hE]; exact emod256_toNat_le _

theorem parse_b_input_le (s : String) (ρ : Dict Nat) : parse_b_input s ρ ≤ 255 := by
  unfold parse_b_input
  dsimp only
  split
  · omega
  · split
    · exact parse_b_formula_le _ _
    · split
      · exact parseHexPair_le _
      · exact get_var_value_le _ _

theorem crcRegister_lt (data : List Nat) : crcRegister data < 65536 :=
  Nat.lt_of_le_of_lt Nat.and_le_right (by norm_num)

/-- **C1.** `crc16_modbus` computes the reference MODBUS CRC16: the register
update is exactly the spec's step (initial value `0xFFFF`, each byte XORed
into the low 8 bits, eight steps of shift-right-by-one XORing `0xA001` when
the low bit was set); with order `'little'` (low_first) it returns the
register's low byte then high byte, with `'big'` (high_first) the reverse;
the empty input yields checksum bytes `FF FF`, and input
`[0x01, 0x03, 0x00, 0x00, 0x00, 0x0A]` yields `C5 CD` low-byte-first. -/
theorem crc16_modbus_correct :
    (∀ c, crcShift c = crcShiftSpec c)
    ∧ (∀ data, crcRegister data < 65536)
    ∧ (∀ data, crc16_modbus data "little" = [crcRegister data % 256, crcRegister data / 256])
    ∧ (∀ data, crc16_modbus data "big" = [crcRegister data / 256, crcRegister data % 256])
    ∧ (∀ data, crc16_modbus data "big" = (crc16_modbus data "little").reverse)
    ∧ crc16_modbus [] "little" = [255, 255]
    ∧ crc16_modbus [0x01, 0x03, 0x00, 0x00, 0x00, 0x0A] "little" = [0xC5, 0xCD] := by
  have hshift : ∀ c, crcShift c = crcShiftSpec c := by
    intro c
    simp [crcShift, crcShiftSpec, Nat.and_one_is_mod, Nat.shiftRight_eq_div_pow]
  have hlit : ∀ data,
      crc16_modbus data "little" = [crcRegister data % 256, crcRegister data / 256] := by
    intro data
    simp only [crc16_modbus, if_pos rfl]
    rw [and255_eq_mod, Nat.shiftRight_eq_div_pow]
    norm_num
  have hbig : ∀ data,
      crc16_modbus data "big" = [crcRegister data / 256, crcRegister data % 256] := by
    intro data
    simp only [crc16_modbus, if_neg (show ¬("big" : String) = "little" by decide)]
    rw [and255_eq_mod, Nat.shiftRight_eq_div_pow]
  refine ⟨hshift, crcRegister_lt, hlit, hbig, ?_, by decide, by decide⟩
  intro data
  rw [hbig, hlit]
  simp

/-- **C9.** B-cell evaluation is total and never surfaces an error: for every
raw text and snapshot it returns a plain byte value (`≤ 255`), and the failure
modes degrade to 0: division by zero (`"1/0"`), a malformed expression
(`"1+"`), a disallowed name in an expression (`"2+ABS(3)"` — no name can
resolve in the restricted namespace), an unparsable two-character hex literal
(`"GG"`), and an unparsable formula fragment (`"(("`). -/
theorem parse_b_input_total_and_safe :
    (∀ s ρ, parse_b_input s ρ ≤ 255)
    ∧ (∀ ρ, parse_b_input "1/0" ρ = 0)
    ∧ (∀ ρ, parse_b_input "1+" ρ = 0)
    ∧ (∀ ρ, parse_b_input "2+ABS(3)" ρ = 0)
    ∧ (∀ ρ, parse_b_input "GG" ρ = 0)
    ∧ (∀ ρ, parse_b_formula "((" ρ = 0) :=
  ⟨parse_b_input_le, fun _ => rfl, fun _ => rfl, fun _ => rfl, fun _ => rfl, fun _ => rfl⟩

theorem dropWhile_head_false {p : Char → Bool} {c : Char} {cs : List Char}
    (h : p c = false) : (c :: cs).dropWhile p = c :: cs := by
  simp [List.dropWhile_cons, h]

theorem dropWhile_all_false {p : Char → Bool} {l : List Char}
    (h : ∀ c ∈ l, p c = false) : l.dropWhile p = l := by
  cases l with
  | nil => rfl
  | cons c cs => exact dropWhile_head_false (h c (List.mem_cons_self c cs))

theorem pyStrip_no_ws {l : List Char} (h : ∀ c ∈ l, isPyWs c = false) :
    pyStrip l = l := by
  unfold pyStrip
  rw [dropWhile_all_false h, dropWhile_all_false (by simpa using fun c hc => h c hc),
    List.reverse_reverse]

theorem pyStrip_idem (l : List Char) : pyStrip (pyStrip l) = pyStrip l := by
  have hstrip : ∀ m : List Char, pyStrip m = List.rdropWhile isPyWs (m.dropWhile isPyWs) :=
    fun m => rfl
  rw [hstrip, hstrip]
  have hfront : (List.rdropWhile isPyWs (l.dropWhile isPyWs)).dropWhile isPyWs
      = List.rdropWhile isPyWs (l.dropWhile isPyWs) := by
    cases hR : List.rdropWhile isPyWs (l.dropWhile isPyWs) with
    | nil => rfl
    | cons c cs =>
      refine dropWhile_head_false ?_
      rcases List.rdropWhile_prefix (p := isPyWs) (l := l.dropWhile isPyWs) with ⟨t, ht⟩
      rw [hR] at ht
      by_contra hc
      simp only [Bool.not_eq_false] at hc
      have hA : (l.dropWhile isPyWs).dropWhile isPyWs = l.dropWhile isPyWs :=
        List.dropWhile_idempotent isPyWs l
      rw [← ht] at hA
      rw [List.cons_append, List.dropWhile_cons, if_pos hc] at hA
      have hL := congrArg List.length hA
      have hle := ((cs ++ t).dropWhile_sublist isPyWs).length_le
      rw [List.length_cons] at hL
      omega
  rw [hfront, List.rdropWhile_idempotent]

theorem parse_b_input_of_empty (s : String) (ρ : Dict Nat) (h : pyStrip s.data = []) :
    parse_b_input s ρ = 0 := by
  simp [parse_b_input, h]

theorem parse_b_input_of_op (s : String) (ρ : Dict Nat)
    (h : hasOp (pyStrip s.data) = true) :
    parse_b_input s ρ = parse_b_formula ⟨pyStrip s.data⟩ ρ := by
  have hne : pyStrip s.data ≠ [] := by
    intro he
    rw [he] at h
    simp [hasOp] at h
  simp [parse_b_input, hne, h]

theorem parse_b_input_of_two (s : String) (ρ : Dict Nat)
    (h1 : hasOp (pyStrip s.data) = false) (h2 : (pyStrip s.data).length = 2) :
    parse_b_input s ρ = parseHexPair (pyStrip s.data) := by
  have hne : pyStrip s.data ≠ [] := by
    intro he
    rw [he] at h2
    simp at h2
  simp [parse_b_input, hne, h1, h2]

theorem parse_b_input_of_bare (s : String) (ρ : Dict Nat)
    (h0 : pyStrip s.data ≠ []) (h1 : hasOp (pyStrip s.data) = false)
    (h2 : (pyStrip s.data).length ≠ 2) :
    parse_b_input s ρ = (dget ρ ⟨pyUpper (pyStrip s.data)⟩).getD 0 &&& 255 := by
  simp only [parse_b_input, get_var_value]
  rw [if_neg h0, if_neg (by simp [h1]), if_neg h2]
  rw [pyStrip_idem]

theorem hexVal_le_15 {c : Char} (h : isHexC c = true) : hexVal c ≤ 15 := by
  simp only [isHexC, Bool.or_eq_true, Bool.and_eq_true, decide_eq_true_eq] at h
  unfold hexVal
  split_ifs <;> omega

theorem parseHexPair_of_hex {c1 c2 : Char} (h1 : isHexC c1 = true) (h2 : isHexC c2 = true) :
    parseHexPair [c1, c2] = 16 * hexVal c1 + hexVal c2 := by
  have b1 := hexVal_le_15 h1
  have b2 := hexVal_le_15 h2
  simp only [parseHexPair]
  rw [if_pos ⟨h1, h2⟩]
  exact and255_of_lt (by omega)

theorem parseHexPair_of_not_hex {c1 c2 : Char} (h : ¬(isHexC c1 = true ∧ isHexC c2 = true)) :
    parseHexPair [c1, c2] = 0 := by
  simp only [parseHexPair]
  rw [if_neg h]

/-- **C3.** B-cell classification follows the priority order of
`parse_b_input`: blank text resolves to 0; text containing any of `+ - * / # $`
is evaluated as a formula; otherwise two-character text is a case-insensitive
hexadecimal byte literal (a non-hex pair yields 0); any other text is a bare
reference resolved from the snapshot, defaulting to 0 and masked to one byte.
Examples: `"0a"` yields 10, `"FF"` yields 255, `"GG"` yields 0, `"A0101"`
yields 20 when resolved to 20 and 0 when unset. -/
theorem parse_b_input_classification :
    (∀ s ρ, pyStrip s.data = [] → parse_b_input s ρ = 0)
    ∧ (∀ s ρ, hasOp (pyStrip s.data) = true →
        parse_b_input s ρ = parse_b_formula ⟨pyStrip s.data⟩ ρ)
    ∧ (∀ c1 c2 ρ, isPyWs c1 = false → isPyWs c2 = false →
        opChar c1 = false → opChar c2 = false → isHexC c1 = true → isHexC c2 = true →
        parse_b_input ⟨[c1, c2]⟩ ρ = 16 * hexVal c1 + hexVal c2)
    ∧ (∀ c1 c2 ρ, isPyWs c1 = false → isPyWs c2 = false →
        opChar c1 = false → opChar c2 = false → ¬(isHexC c1 = true ∧ isHexC c2 = true) →
        parse_b_input ⟨[c1, c2]⟩ ρ = 0)
    ∧ parse_b_input "0a" [] = 10 ∧ parse_b_input "FF" [] = 255
    ∧ parse_b_input "GG" [] = 0
    ∧ parse_b_input "A0101" [("A0101", 20)] = 20 ∧ parse_b_input "A0101" [] = 0
    ∧ (∀ s ρ, pyStrip s.data ≠ [] → hasOp (pyStrip s.data) = false →
        (pyStrip s.data).length ≠ 2 →
        parse_b_input s ρ = (dget ρ ⟨pyUpper (pyStrip s.data)⟩).getD 0 &&& 255) := by
  have htwo : ∀ (c1 c2 : Char) (ρ : Dict Nat), isPyWs c1 = false → isPyWs c2 = false →
      opChar c1 = false → opChar c2 = false →
      parse_b_input ⟨[c1, c2]⟩ ρ = parseHexPair [c1, c2] := by
    intro c1 c2 ρ hw1 hw2 ho1 ho2
    have hstr : pyStrip (⟨[c1, c2]⟩ : String).data = [c1, c2] := by
      refine pyStrip_no_ws ?_
      intro c hc
      simp only [List.mem_cons, List.not_mem_nil, or_false] at hc
      rcases hc with rfl | rfl
      · exact hw1
      · exact hw2
    have hop : hasOp (pyStrip (⟨[c1, c2]⟩ : String).data) = false := by
      rw [hstr]
      simp [hasOp, ho1, ho2]
    have := parse_b_input_of_two ⟨[c1, c2]⟩ ρ hop (by rw [hstr]; rfl)
    rw [this, hstr]
  refine ⟨parse_b_input_of_empty, parse_b_input_of_op, ?_, ?_, by decide, by decide,
    by decide, by decide, by decide, parse_b_input_of_bare⟩
  · intro c1 c2 ρ hw1 hw2 ho1 ho2 hx1 hx2
    rw [htwo c1 c2 ρ hw1 hw2 ho1 ho2, parseHexPair_of_hex hx1 hx2]
  · intro c1 c2 ρ hw1 hw2 ho1 ho2 hx
    rw [htwo c1 c2 ρ hw1 hw2 ho1 ho2, parseHexPair_of_not_hex hx]

theorem parse_b_input_classification_witness :
    parse_b_input ⟨['0', 'a']⟩ [] = 16 * hexVal '0' + hexVal 'a'
    ∧ parse_b_input ⟨['G', 'G']⟩ [] = 0
    ∧ parse_b_input "B0101" [] = 0 :=
  ⟨parse_b_input_classification.2.2.1 '0' 'a' [] (by decide) (by decide) (by decide)
      (by decide) (by decide) (by decide),
   parse_b_input_classification.2.2.2.1 'G' 'G' [] (by decide) (by decide) (by decide)
      (by decide) (by decide),
   by
    have := parse_b_input_classification.2.2.2.2.2.2.2.2.2 "B0101" [] (by decide)
      (by decide) (by decide)
    simpa using this⟩

/-- **C10.** Non-empty text with none of `+ - * / # $` and length other than
two — including a single decimal digit like `"5"` or a three-character string —
is treated as a bare cell-name lookup after stripping and uppercasing, so with
no cell of that name it resolves to 0 rather than to its numeric value. -/
theorem bare_reference_fallthrough :
    (∀ s ρ, pyStrip s.data ≠ [] → hasOp (pyStrip s.data) = false →
      (pyStrip s.data).length ≠ 2 →
      parse_b_input s ρ = (dget ρ ⟨pyUpper (pyStrip s.data)⟩).getD 0 &&& 255)
    ∧ parse_b_input "5" [] = 0
    ∧ parse_b_input "5" [] ≠ 5
    ∧ parse_b_input "123" [] = 0
    ∧ parse_b_input "123" [] ≠ 123
    ∧ (∀ ρ, parse_b_input "5" ρ = (dget ρ "5").getD 0 &&& 255) := by
  refine ⟨parse_b_input_of_bare, by decide, by decide, by decide, by decide, fun ρ => rfl⟩

theorem bare_reference_fallthrough_witness :
    parse_b_input "CDE" [("CDE", 77)] = (dget [("CDE", 77)] ⟨pyUpper (pyStrip "CDE".data)⟩).getD 0 &&& 255 :=
  bare_reference_fallthrough.1 "CDE" [("CDE", 77)] (by decide) (by decide) (by decide)

theorem pyRound_nearest (q : Rat) : |((pyRound q : Int) : Rat) - q| ≤ 1/2 := by
  unfold pyRound
  dsimp only
  have h0 : (0 : Rat) ≤ q - (⌊q⌋ : Rat) := by
    have := Int.floor_le q
    linarith
  have h1 : q - (⌊q⌋ : Rat) < 1 := by
    have := Int.lt_floor_add_one q
    linarith
  split_ifs with hlt hgt hev
  · rw [abs_sub_comm, abs_of_nonneg h0]
    linarith
  · push_cast
    rw [abs_of_nonneg (by linarith)]
    linarith
  · rw [abs_sub_comm, abs_of_nonneg h0]
    linarith
  · push_cast
    rw [abs_of_nonneg (by linarith)]
    linarith

theorem pyRoundNum_nearest (r : PyNum) : |((pyRoundNum r : Int) : Rat) - r.toQ| ≤ 1/2 := by
  cases r with
  | int n => simp [pyRoundNum, PyNum.toQ]
  | float q => exact pyRound_nearest q

/-- **C4.** For every formula, once the pipeline (pass 1, uppercasing, cell
substitution) produces an expression that evaluates to a number `r`, the
returned value is that number rounded to a nearest integer (distance at most
1/2; Python rounds ties to even) and masked to one byte (`mod 256`);
`"B0106+0XFF*2"` with `B0106 = 10` evaluates to `(10 + 255*2) & 0xFF = 8`,
with `0XFF` read as the hexadecimal integer 255. -/
theorem parse_b_formula_rounds_and_masks :
    (∀ s ρ r, pyEval (substVars ρ (pyUpper (pass1 ρ s.data))) = some r →
      parse_b_formula s ρ = ((pyRoundNum r) % (256 : Int)).toNat
        ∧ |((pyRoundNum r : Int) : Rat) - r.toQ| ≤ 1/2)
    ∧ pyEval (substVars [("B0106", 10)] (pyUpper (pass1 [("B0106", 10)] "B0106+0XFF*2".data)))
        = some (PyNum.int (10 + 255 * 2))
    ∧ parse_b_formula "B0106+0XFF*2" [("B0106", 10)] = 8 := by
  refine ⟨?_, by decide, by decide⟩
  intro s ρ r hE
  constructor
  · unfold parse_b_formula
    dsimp only
    rw [hE]
    cases r with
    | int n => rfl
    | float q => rfl
  · exact pyRoundNum_nearest r

theorem parse_b_formula_rounds_and_masks_witness :
    parse_b_formula "B0106+0XFF*2" [("B0106", 10)] = ((pyRoundNum (PyNum.int 520)) % (256 : Int)).toNat :=
  (parse_b_formula_rounds_and_masks.1 "B0106+0XFF*2" [("B0106", 10)] (PyNum.int 520)
    (by decide)).1

theorem hexVal_hexDig : ∀ d, d < 16 → hexVal (hexDig d) = d := by decide

theorem toHex4_take2 {m : Nat} (hm : m < 65536) : hexValL ((toHex4 m).take 2) = m / 256 := by
  show hexValL [hexDig (m / 4096 % 16), hexDig (m / 256 % 16)] = m / 256
  simp only [hexValL, List.foldl]
  rw [hexVal_hexDig _ (Nat.mod_lt _ (by norm_num)), hexVal_hexDig _ (Nat.mod_lt _ (by norm_num))]
  omega

theorem toHex4_drop2 {m : Nat} (hm : m < 65536) : hexValL ((toHex4 m).drop 2) = m % 256 := by
  show hexValL [hexDig (m / 16 % 16), hexDig (m % 16)] = m % 256
  simp only [hexValL, List.foldl]
  rw [hexVal_hexDig _ (Nat.mod_lt _ (by norm_num)), hexVal_hexDig _ (Nat.mod_lt _ (by norm_num))]
  omega

theorem emod65536_toNat_lt (n : Int) : (n % (65536 : Int)).toNat < 65536 := by
  have h1 : (0 : Int) ≤ n % 65536 := Int.emod_nonneg n (by norm_num)
  have h2 : n % 65536 < 65536 := Int.emod_lt_of_pos n (by norm_num)
  omega

/-- **C5.** For an inner expression that evaluates to `r`, with
`v = int(round(r)) & 0xFFFF` the 16-bit masked value, `#(inner)` yields the
decimal string of the high byte `v / 256` (the first two of the four uppercase
hex digits) and `$(inner)` yields the low byte `v % 256` (the last two), each
in 0–255; `"#(0X1234)"` yields 18 and `"$(0X1234)"` yields 52. -/
theorem parse_high_low_hex_extracts :
    (∀ (inner : List Char) (ρ : Dict Nat) (r : PyNum),
      pyEval (substVars ρ (pyUpper inner)) = some r →
      parse_high_low_hex '#' inner ρ
          = natDigits (((pyRoundNum r) % (65536 : Int)).toNat / 256)
        ∧ parse_high_low_hex '$' inner ρ
          = natDigits (((pyRoundNum r) % (65536 : Int)).toNat % 256)
        ∧ ((pyRoundNum r) % (65536 : Int)).toNat / 256 ≤ 255
        ∧ ((pyRoundNum r) % (65536 : Int)).toNat % 256 ≤ 255)
    ∧ parse_b_formula "#(0X1234)" [] = 18 ∧ parse_b_formula "$(0X1234)" [] = 52 := by
  refine ⟨?_, by decide, by decide⟩
  intro inner ρ r hE
  have hm := emod65536_toNat_lt (pyRoundNum r)
  refine ⟨?_, ?_, by omega, by omega⟩
  · unfold parse_high_low_hex
    dsimp only
    rw [hE]
    simp [toHex4_take2 hm]
  · unfold parse_high_low_hex
    dsimp only
    rw [hE]
    simp [toHex4_drop2 hm]

theorem parse_high_low_hex_extracts_witness :
    parse_high_low_hex '#' "0X1234".data []
        = natDigits (((pyRoundNum (PyNum.int 4660)) % (65536 : Int)).toNat / 256)
      ∧ parse_high_low_hex '$' "0X1234".data []
        = natDigits (((pyRoundNum (PyNum.int 4660)) % (65536 : Int)).toNat % 256) := by
  have h := parse_high_low_hex_extracts.1 "0X1234".data [] (PyNum.int 4660) (by decide)
  exact ⟨h.1, h.2.1⟩

theorem dropWhile_no_close {inner rest : List Char} (h : ∀ c ∈ inner, c ≠ ')') :
    (inner ++ ')' :: rest).dropWhile (· != ')') = ')' :: rest := by
  induction inner with
  | nil => simp [List.dropWhile_cons]
  | cons a as ih =>
    have ha : a ≠ ')' := h a (List.mem_cons_self a as)
    rw [List.cons_append, List.dropWhile_cons, if_pos (by simp [ha])]
    exact ih fun c hc => h c (List.mem_cons_of_mem a hc)

theorem takeWhile_no_close {inner rest : List Char} (h : ∀ c ∈ inner, c ≠ ')') :
    (inner ++ ')' :: rest).takeWhile (· != ')') = inner := by
  induction inner with
  | nil => simp [List.takeWhile_cons]
  | cons a as ih =>
    have ha : a ≠ ')' := h a (List.mem_cons_self a as)
    rw [List.cons_append, List.takeWhile_cons, if_pos (by simp [ha])]
    rw [ih fun c hc => h c (List.mem_cons_of_mem a hc)]

theorem scanInner_exact {inner rest : List Char} (hne : inner ≠ [])
    (h : ∀ c ∈ inner, c ≠ ')') :
    scanInner (inner ++ ')' :: rest) = some (inner, rest) := by
  unfold scanInner
  rw [dropWhile_no_close h, takeWhile_no_close h]
  show (if inner = [] then none else some (inner, rest)) = some (inner, rest)
  rw [if_neg hne]

theorem pass1Aux_skip (ρ : Dict Nat) :
    ∀ pre rest : List Char, pass1Aux ρ (pre ++ rest) pre.length = pass1Aux ρ rest 0 := by
  intro pre
  induction pre with
  | nil => intro rest; rfl
  | cons p ps ih =>
    intro rest
    rw [List.cons_append, List.length_cons]
    rw [show pass1Aux ρ (p :: (ps ++ rest)) (ps.length + 1) = pass1Aux ρ (ps ++ rest) ps.length
      from rfl]
    exact ih rest

theorem pass1_extract (ρ : Dict Nat) (sym : Char) (inner rest : List Char)
    (hsym : sym = '#' ∨ sym = '$') (hne : inner ≠ []) (hcl : ∀ c ∈ inner, c ≠ ')') :
    pass1 ρ (sym :: '(' :: (inner ++ ')' :: rest))
      = parse_high_low_hex sym inner ρ ++ pass1 ρ rest := by
  unfold pass1
  rw [show pass1Aux ρ (sym :: '(' :: (inner ++ ')' :: rest)) 0
      = if sym = '#' ∨ sym = '$' then
          match scanInner (inner ++ ')' :: rest) with
          | some (i, _) =>
            parse_high_low_hex sym i ρ ++
              pass1Aux ρ ('(' :: (inner ++ ')' :: rest)) (i.length + 2)
          | none => sym :: pass1Aux ρ ('(' :: (inner ++ ')' :: rest)) 0
        else sym :: pass1Aux ρ ('(' :: (inner ++ ')' :: rest)) 0 from rfl]
  rw [if_pos hsym, scanInner_exact hne hcl]
  dsimp only
  have hskip := pass1Aux_skip ρ ('(' :: (inner ++ [')'])) rest
  have hlist : ('(' :: (inner ++ [')'])) ++ rest = '(' :: (inner ++ ')' :: rest) := by
    simp
  have hlen : ('(' :: (inner ++ [')'])).length = inner.length + 2 := by
    simp
  rw [hlist, hlen] at hskip
  rw [hskip]

/-- **C6 counterexample.**  With nested parentheses inside the construct, the
claim predicts that pass 1 replaces all of `$((1+2)*3)` by the low byte of
`(1+2)*3 = 9`, i.e. produces the text `"9"` and the formula value 9; the
program's regex stops the inner group at the first `)`, so pass 1 actually
produces `"0*3)"` and the whole formula evaluates to 0. -/
theorem pass1_nested_paren_counterexample :
    pass1 [] "$((1+2)*3)".data = "0*3)".data
    ∧ pass1 [] "$((1+2)*3)".data ≠ "9".data
    ∧ parse_b_formula "$((1+2)*3)" [] = 0
    ∧ parse_b_formula "$((1+2)*3)" [] ≠ 9 := by
  refine ⟨by decide, by decide, by decide, by decide⟩

/-- **C6 amended.**  Pass 1 replaces `#(<inner>)`/`$(<inner>)` by the decimal
string of the high/low byte of the evaluated inner expression only when the
inner text is a nonempty run of characters containing no `)`; an inner
expression with nested parentheses is truncated at the first `)` (so
`$((1+2)*3)` leaves the text `0*3)`, and the formula evaluates to 0). -/
theorem pass1_extract_amended :
    (∀ ρ sym inner rest, sym = '#' ∨ sym = '$' → inner ≠ [] → (∀ c ∈ inner, c ≠ ')') →
      pass1 ρ (sym :: '(' :: (inner ++ ')' :: rest))
        = parse_high_low_hex sym inner ρ ++ pass1 ρ rest)
    ∧ pass1 [] "$((1+2)*3)".data = "0*3)".data
    ∧ parse_b_formula "$((1+2)*3)" [] = 0 :=
  ⟨fun ρ sym inner rest hs hn hc => pass1_extract ρ sym inner rest hs hn hc,
   by decide, by decide⟩

theorem pass1_extract_amended_witness :
    pass1 [] ('$' :: '(' :: ("1+2".data ++ ')' :: []))
      = parse_high_low_hex '$' "1+2".data [] ++ pass1 [] [] :=
  pass1_extract_amended.1 [] '$' "1+2".data [] (by decide) (by decide) (by decide)

theorem dget_dset_self {α : Type} (d : Dict α) (k : String) (v : α) :
    dget (dset d k v) k = some v := by
  simp [dget, dset]

theorem dget_dset_ne {α : Type} (d : Dict α) (k k' : String) (v : α) (h : k' ≠ k) :
    dget (dset d k' v) k = dget d k := by
  simp [dget, dset, h]

theorem bStep_cases (raw : Dict String) (acc : Dict Nat × Bool) (n : String) :
    bStep raw acc n = (dset acc.1 n (parse_b_input ((dget raw n).getD "") acc.1), true)
    ∨ (bStep raw acc n = acc
        ∧ parse_b_input ((dget raw n).getD "") acc.1 = (dget acc.1 n).getD 0) := by
  unfold bStep
  dsimp only
  split
  · left; rfl
  · right
    constructor
    · rfl
    · omega

theorem vget_bStep_other (raw : Dict String) (acc : Dict Nat × Bool) (n m : String)
    (h : n ≠ m) : dget (bStep raw acc n).1 m = dget acc.1 m := by
  rcases bStep_cases raw acc n with hc | ⟨hc, -⟩ <;> rw [hc]
  · exact dget_dset_ne _ _ _ _ h

theorem vget_bStep_self_le (raw : Dict String) (acc : Dict Nat × Bool) (n : String) :
    vget (bStep raw acc n).1 n ≤ 255 := by
  rcases bStep_cases raw acc n with hc | ⟨hc, he⟩ <;> rw [hc] <;> unfold vget
  · rw [dget_dset_self]
    exact parse_b_input_le _ _
  · rw [← he]
    exact parse_b_input_le _ _

theorem bFold_bound (raw : Dict String) :
    ∀ (cells : List String) (st : Dict Nat) (ch : Bool) (n : String),
      (n ∈ cells ∨ vget st n ≤ 255) →
      vget ((cells.foldl (bStep raw) (st, ch)).1) n ≤ 255 := by
  intro cells
  induction cells with
  | nil =>
    intro st ch n h
    rcases h with h | h
    · exact absurd h (List.not_mem_nil n)
    · exact h
  | cons c cs ih =>
    intro st ch n h
    rw [List.foldl_cons]
    have hstep : ∀ m, m ∈ cs ∨ vget (bStep raw (st, ch) c).1 m ≤ 255 →
        vget ((cs.foldl (bStep raw) (bStep raw (st, ch) c)).1) m ≤ 255 := by
      intro m hm
      have := ih (bStep raw (st, ch) c).1 (bStep raw (st, ch) c).2 m hm
      simpa using this
    by_cases hn : n ∈ cs
    · exact hstep n (Or.inl hn)
    · refine hstep n (Or.inr ?_)
      by_cases hnc : n = c
      · subst hnc
        exact vget_bStep_self_le raw (st, ch) n
      · rcases h with h | h
        · rcases List.mem_cons.mp h with h' | h'
          · exact absurd h' hnc
          · exact absurd h' hn
        · unfold vget
          rw [vget_bStep_other raw (st, ch) c n (fun he => hnc he.symm)]
          exact h

theorem bRound_bound (rows : List Nat) (hexCols : Nat) (raw : Dict String) (st : Dict Nat)
    (n : String) (h : n ∈ gridCells "B" rows hexCols) :
    vget (bRound rows hexCols raw st).1 n ≤ 255 :=
  bFold_bound raw _ st false n (Or.inl h)

theorem bLoop_bound (rows : List Nat) (hexCols : Nat) (raw : Dict String) :
    ∀ (k : Nat) (st : Dict Nat), 1 ≤ k → ∀ n ∈ gridCells "B" rows hexCols,
      vget (bLoop rows hexCols raw k st) n ≤ 255 := by
  intro k
  induction k with
  | zero => intro st h; omega
  | succ k ih =>
    intro st hk n hn
    unfold bLoop
    rcases hR : bRound rows hexCols raw st with ⟨st2, ch⟩
    have hb : vget st2 n ≤ 255 := by
      have := bRound_bound rows hexCols raw st n hn
      rw [hR] at this
      exact this
    cases ch with
    | false => exact hb
    | true =>
      cases k with
      | zero => exact hb
      | succ k2 => exact ih st2 (by omega) n hn

theorem dget_foldl_dset_other {f : String → Nat} :
    ∀ (cells : List String) (st : Dict Nat) (n : String), n ∉ cells →
      dget ((cells.foldl (fun acc m => dset acc m (f m)) st)) n = dget st n := by
  intro cells
  induction cells with
  | nil => intro st n _; rfl
  | cons c cs ih =>
    intro st n hn
    rw [List.foldl_cons]
    rw [ih _ n (fun h => hn (List.mem_cons_of_mem c h))]
    exact dget_dset_ne st n c _ (fun h => hn (h ▸ List.mem_cons_self c cs))

theorem dget_foldl_dset_mem {f : String → Nat} :
    ∀ (cells : List String) (st : Dict Nat) (n : String), n ∈ cells →
      dget ((cells.foldl (fun acc m => dset acc m (f m)) st)) n = some (f n) := by
  intro cells
  induction cells with
  | nil => intro st n hn; exact absurd hn (List.not_mem_nil n)
  | cons c cs ih =>
    intro st n hn
    rw [List.foldl_cons]
    by_cases hcs : n ∈ cs
    · exact ih _ n hcs
    · have hnc : n = c := by
        rcases List.mem_cons.mp hn with h | h
        · exact h
        · exact absurd h hcs
      subst hnc
      rw [dget_foldl_dset_other cs _ n hcs, dget_dset_self]

theorem updateA_sets (rows : List Nat) (decCols : Nat) (raw : Dict String) (st : Dict Nat)
    (n : String) (h : n ∈ gridCells "A" rows decCols) :
    dget (updateA rows decCols raw st) n = some (parseDec ((dget raw n).getD "")) :=
  dget_foldl_dset_mem (gridCells "A" rows decCols) st n h

theorem bFold_untouched (raw : Dict String) :
    ∀ (cells : List String) (acc : Dict Nat × Bool) (n : String), n ∉ cells →
      dget ((cells.foldl (bStep raw) acc).1) n = dget acc.1 n := by
  intro cells
  induction cells with
  | nil => intro acc n _; rfl
  | cons c cs ih =>
    intro acc n hn
    rw [List.foldl_cons]
    rw [ih _ n (fun h => hn (List.mem_cons_of_mem c h))]
    exact vget_bStep_other raw acc c n (fun h => hn (h ▸ List.mem_cons_self c cs))

theorem bLoop_untouched (rows : List Nat) (hexCols : Nat) (raw : Dict String) :
    ∀ (k : Nat) (st : Dict Nat) (n : String), n ∉ gridCells "B" rows hexCols →
      dget (bLoop rows hexCols raw k st) n = dget st n := by
  intro k
  induction k with
  | zero => intro st n _; rfl
  | succ k ih =>
    intro st n hn
    unfold bLoop
    rcases hR : bRound rows hexCols raw st with ⟨st2, ch⟩
    have hst2 : dget st2 n = dget st n := by
      have := bFold_untouched raw (gridCells "B" rows hexCols) (st, false) n hn
      unfold bRound at hR
      rw [hR] at this
      exact this
    cases ch with
    | false => exact hst2
    | true => rw [ih st2 n hn, hst2]

theorem mem_gridCells {pre : String} {rows : List Nat} {cols : Nat} {n : String} :
    n ∈ gridCells pre rows cols →
      ∃ r c, r ∈ rows ∧ c < cols ∧ n = generate_var_name pre r (c + 1) := by
  intro h
  induction rows with
  | nil => exact absurd h (List.not_mem_nil n)
  | cons r rs ih =>
    rw [gridCells, List.mem_append] at h
    rcases h with h | h
    · rcases List.mem_map.mp h with ⟨c, hc, he⟩
      exact ⟨r, c, List.mem_cons_self r rs, List.mem_range.mp hc, he.symm⟩
    · rcases ih h with ⟨r', c', hr', hc', he'⟩
      exact ⟨r', c', List.mem_cons_of_mem r hr', hc', he'⟩

theorem gridCells_data {pre : String} {rows : List Nat} {cols : Nat} {n : String}
    (h : n ∈ gridCells pre rows cols) :
    ∃ r c, n.data = pre.data ++ ((pad2 r).data ++ (pad2 c).data) := by
  rcases mem_gridCells h with ⟨r, c, -, -, he⟩
  subst he
  exact ⟨r, c + 1, by show (pre ++ pad2 r ++ pad2 (c + 1)).data = _; simp⟩

theorem gridCells_head_A {rows : List Nat} {cols : Nat} {n : String}
    (h : n ∈ gridCells "A" rows cols) : n.data.head? = some 'A' := by
  rcases gridCells_data h with ⟨r, c, he⟩
  rw [he]
  rfl

theorem gridCells_head_B {rows : List Nat} {cols : Nat} {n : String}
    (h : n ∈ gridCells "B" rows cols) : n.data.head? = some 'B' := by
  rcases gridCells_data h with ⟨r, c, he⟩
  rw [he]
  rfl

theorem gridCells_A_not_B {rowsA rowsB : List Nat} {colsA colsB : Nat} {n : String}
    (h : n ∈ gridCells "A" rowsA colsA) : n ∉ gridCells "B" rowsB colsB := by
  intro hB
  have h1 := gridCells_head_A h
  have h2 := gridCells_head_B hB
  rw [h1] at h2
  exact absurd (Option.some.inj h2) (by decide)

/-- **C7 counterexample.**  A resolution pass over a grid whose A cell
`A0101` holds raw text `"4000"` stores the value 4000 — outside 0–255 — in
the Resolved Value Store: A-class values are stored unmasked
(`int(raw_text)`, source line 604), so the claim that every stored value is
masked to one byte is false. -/
theorem resolved_store_mask_counterexample :
    dget (update_all_var_values [1] 1 1 [("A0101", "4000")] []) "A0101" = some 4000
    ∧ ¬(4000 ≤ 255) := ⟨by decide, by decide⟩

/-- **C7 amended.**  After a resolution pass, every B-class cell of the grid
holds a value masked to 0–255; A-class cells store the full parsed integer
(`int(raw_text)` when the text is all digits, else 0) without masking, and
masking to one byte is applied only when a value is read back through
`get_var_value`. -/
theorem resolved_store_masking_amended :
    (∀ rows decCols hexCols raw st n, n ∈ gridCells "B" rows hexCols →
      vget (update_all_var_values rows decCols hexCols raw st) n ≤ 255)
    ∧ (∀ rows decCols hexCols raw st n, n ∈ gridCells "A" rows decCols →
      dget (update_all_var_values rows decCols hexCols raw st) n
        = some (parseDec ((dget raw n).getD "")))
    ∧ (∀ name ρ, get_var_value name ρ ≤ 255) := by
  refine ⟨?_, ?_, get_var_value_le⟩
  · intro rows decCols hexCols raw st n hn
    exact bLoop_bound rows hexCols raw 5 (updateA rows decCols raw st) (by omega) n hn
  · intro rows decCols hexCols raw st n hn
    unfold update_all_var_values
    rw [bLoop_untouched rows hexCols raw 5 _ n (gridCells_A_not_B hn)]
    exact updateA_sets rows decCols raw st n hn

theorem resolved_store_masking_amended_witness :
    vget (update_all_var_values [1] 1 1 [("A0101", "4000"), ("B0101", "FF")] []) "B0101" ≤ 255
    ∧ dget (update_all_var_values [1] 1 1 [("A0101", "4000"), ("B0101", "FF")] []) "A0101"
        = some (parseDec ((dget [("A0101", "4000"), ("B0101", "FF")] "A0101").getD "")) :=
  ⟨resolved_store_masking_amended.1 [1] 1 1 [("A0101", "4000"), ("B0101", "FF")] [] "B0101"
      (by decide),
   resolved_store_masking_amended.2.1 [1] 1 1 [("A0101", "4000"), ("B0101", "FF")] [] "A0101"
      (by decide)⟩

theorem dget_filter_none {α : Type} (q : String × α → Bool) :
    ∀ (d : Dict α) (k : String), (∀ v, q (k, v) = false) →
      dget (d.filter q) k = none := by
  intro d
  induction d with
  | nil => intro k _; rfl
  | cons p rest ih =>
    intro k hq
    rcases p with ⟨k', v'⟩
    rw [List.filter_cons]
    by_cases hk : k' = k
    · subst hk
      rw [hq v']
      exact ih _ hq
    · split
      · rw [show dget ((k', v') :: rest.filter q) k = dget (rest.filter q) k by
          simp [dget, hk]]
        exact ih k hq
      · exact ih k hq

/-- **C8 counterexample.**  Shrinking `hex_col_count` from 6 to 5 prunes
nothing: after the shrink the Resolved Value Store still holds the removed
cell `B0106 = 10`, and the formula cell `B0101` (raw text `"B0106"`) still
resolves to the stale value 10 instead of treating the removed cell as
unknown (value 0). -/
theorem shrink_columns_keeps_stale_counterexample :
    dget (on_hex_col_change [1] 0 5 [("B0101", "B0106"), ("B0106", "0A")]
        (update_all_var_values [1] 0 6 [("B0101", "B0106"), ("B0106", "0A")] []))
      "B0106" = some 10
    ∧ vget (on_hex_col_change [1] 0 5 [("B0101", "B0106"), ("B0106", "0A")]
        (update_all_var_values [1] 0 6 [("B0101", "B0106"), ("B0106", "0A")] []))
      "B0101" = 10
    ∧ (10 : Nat) ≠ 0 := ⟨by decide, by decide, by decide⟩

/-- **C8 amended.**  `remove_calc_row` prunes the removed row: every Raw Text
entry whose key has the row's `A`/`B` prefix is removed, and so is every
Resolved Value entry with such a key that also has a Raw Text entry (the pop
list is built from the raw-text keys).  Shrinking `hex_col_count` (or
`decimal_col_count`) prunes nothing: the column-shrink handler only recomputes
the smaller grid, so entries of removed columns persist and a formula
referencing a removed-column cell still sees its stale value. -/
theorem remove_calc_row_amended :
    (∀ row_num raw st (k : String),
      (startsWithL ('A' :: (pad2 row_num).data) k.data
        || startsWithL ('B' :: (pad2 row_num).data) k.data) = true →
      dget (remove_calc_row row_num raw st).1 k = none
      ∧ ((dget raw k).isSome = true → dget (remove_calc_row row_num raw st).2 k = none))
    ∧ dget (on_hex_col_change [1] 0 5 [("B0101", "B0106"), ("B0106", "0B")]
        (update_all_var_values [1] 0 6 [("B0101", "B0106"), ("B0106", "0B")] []))
      "B0106" = some 11
    ∧ vget (on_hex_col_change [1] 0 5 [("B0101", "B0106"), ("B0106", "0B")]
        (update_all_var_values [1] 0 6 [("B0101", "B0106"), ("B0106", "0B")] []))
      "B0101" = 11 := by
  refine ⟨?_, by decide, by decide⟩
  intro row_num raw st k hdel
  constructor
  · refine dget_filter_none _ raw k ?_
    intro v
    simp [hdel]
  · intro hsome
    refine dget_filter_none _ st k ?_
    intro v
    simp [hdel, hsome]

theorem remove_calc_row_amended_witness :
    dget (remove_calc_row 1 [("B0101", "0A")] [("B0101", 10)]).1 "B0101" = none
    ∧ dget (remove_calc_row 1 [("B0101", "0A")] [("B0101", 10)]).2 "B0101" = none := by
  have h := remove_calc_row_amended.1 1 [("B0101", "0A")] [("B0101", 10)] "B0101" (by decide)
  exact ⟨h.1, h.2 (by decide)⟩

theorem chainStep_val (rows : List Nat) (hexCols : Nat) (raw : Dict String)
    (depth target : String → Nat)
    (Hstep : ∀ n ∈ gridCells "B" rows hexCols,
      (∀ ρ, parse_b_input ((dget raw n).getD "") ρ = target n)
      ∨ (∃ m, m ∈ gridCells "B" rows hexCols ∧ depth m < depth n ∧ target m = target n ∧
          ∀ ρ, parse_b_input ((dget raw n).getD "") ρ = vget ρ m &&& 255))
    (Htb : ∀ n ∈ gridCells "B" rows hexCols, target n ≤ 255)
    (r : Nat) (st : Dict Nat)
    (hP : ∀ n ∈ gridCells "B" rows hexCols, depth n < r → vget st n = target n)
    (n : String) (hn : n ∈ gridCells "B" rows hexCols) (hd : depth n ≤ r) :
    parse_b_input ((dget raw n).getD "") st = target n := by
  rcases Hstep n hn with hlit | ⟨m, hm, hdm, htm, href⟩
  · exact hlit st
  · rw [href st, hP m hm (by omega), and255_of_lt (by have := Htb m hm; omega), htm]

theorem chainFold (rows : List Nat) (hexCols : Nat) (raw : Dict String)
    (depth target : String → Nat)
    (Hstep : ∀ n ∈ gridCells "B" rows hexCols,
      (∀ ρ, parse_b_input ((dget raw n).getD "") ρ = target n)
      ∨ (∃ m, m ∈ gridCells "B" rows hexCols ∧ depth m < depth n ∧ target m = target n ∧
          ∀ ρ, parse_b_input ((dget raw n).getD "") ρ = vget ρ m &&& 255))
    (Htb : ∀ n ∈ gridCells "B" rows hexCols, target n ≤ 255)
    (r : Nat) :
    ∀ (rest : List String), (∀ x ∈ rest, x ∈ gridCells "B" rows hexCols) →
    ∀ (st : Dict Nat) (ch : Bool),
      (∀ n ∈ gridCells "B" rows hexCols, depth n < r → vget st n = target n) →
      (∀ n ∈ gridCells "B" rows hexCols, depth n ≤ r → n ∉ rest → vget st n = target n) →
      (∀ n ∈ gridCells "B" rows hexCols, depth n < r →
        vget (rest.foldl (bStep raw) (st, ch)).1 n = target n)
      ∧ (∀ n ∈ gridCells "B" rows hexCols, depth n ≤ r →
        vget (rest.foldl (bStep raw) (st, ch)).1 n = target n) := by
  intro rest
  induction rest with
  | nil =>
    intro hsub st ch hP hDone
    exact ⟨fun n hn hd => hP n hn hd,
      fun n hn hd => hDone n hn hd (List.not_mem_nil n)⟩
  | cons c cs ih =>
    intro hsub st ch hP hDone
    have hc : c ∈ gridCells "B" rows hexCols := hsub c (List.mem_cons_self c cs)
    rw [List.foldl_cons]
    have hself : depth c ≤ r → vget (bStep raw (st, ch) c).1 c = target c := by
      intro hd
      have hpar : parse_b_input ((dget raw c).getD "") st = target c :=
        chainStep_val rows hexCols raw depth target Hstep Htb r st hP c hc hd
      rcases bStep_cases raw (st, ch) c with hcs | ⟨hcs, he⟩ <;> rw [hcs] <;> unfold vget
      · rw [dget_dset_self]
        exact hpar
      · dsimp only at he ⊢
        rw [← he]
        exact hpar
    have hother : ∀ m, m ≠ c → vget (bStep raw (st, ch) c).1 m = vget st m := by
      intro m hm
      unfold vget
      rw [vget_bStep_other raw (st, ch) c m (fun h => hm h.symm)]
    have hP1 : ∀ n ∈ gridCells "B" rows hexCols, depth n < r →
        vget (bStep raw (st, ch) c).1 n = target n := by
      intro n hn hd
      by_cases hnc : n = c
      · subst hnc
        exact hself (by omega)
      · rw [hother n hnc]
        exact hP n hn hd
    have hDone1 : ∀ n ∈ gridCells "B" rows hexCols, depth n ≤ r → n ∉ cs →
        vget (bStep raw (st, ch) c).1 n = target n := by
      intro n hn hd hrest
      by_cases hnc : n = c
      · subst hnc
        exact hself hd
      · rw [hother n hnc]
        refine hDone n hn hd ?_
        intro hmem
        rcases List.mem_cons.mp hmem with h | h
        · exact hnc h
        · exact hrest h
    have := ih (fun x hx => hsub x (List.mem_cons_of_mem c hx))
      (bStep raw (st, ch) c).1 (bStep raw (st, ch) c).2 hP1 hDone1
    simpa using this

theorem foldl_flag_true (raw : Dict String) :
    ∀ (rest : List String) (acc : Dict Nat × Bool), acc.2 = true →
      (rest.foldl (bStep raw) acc).2 = true := by
  intro rest
  induction rest with
  | nil => intro acc h; exact h
  | cons c cs ih =>
    intro acc h
    rw [List.foldl_cons]
    refine ih _ ?_
    rcases bStep_cases raw acc c with hcs | ⟨hcs, -⟩ <;> rw [hcs]
    rw [h]

theorem foldl_noChange (raw : Dict String) :
    ∀ (rest : List String) (st : Dict Nat),
      (rest.foldl (bStep raw) (st, false)).2 = false →
      (rest.foldl (bStep raw) (st, false)).1 = st
      ∧ ∀ c ∈ rest, parse_b_input ((dget raw c).getD "") st = vget st c := by
  intro rest
  induction rest with
  | nil =>
    intro st _
    exact ⟨rfl, fun c hc => absurd hc (List.not_mem_nil c)⟩
  | cons c cs ih =>
    intro st hflag
    rw [List.foldl_cons] at hflag ⊢
    rcases bStep_cases raw (st, false) c with hcs | ⟨hcs, he⟩
    · rw [hcs] at hflag
      have := foldl_flag_true raw cs _ (show ((dset (st, false).1 c
        (parse_b_input ((dget raw c).getD "") (st, false).1), true) : Dict Nat × Bool).2 = true
        from rfl)
      rw [this] at hflag
      exact absurd hflag (by simp)
    · rw [hcs] at hflag ⊢
      rcases ih st hflag with ⟨h1, h2⟩
      refine ⟨h1, ?_⟩
      intro d hd
      rcases List.mem_cons.mp hd with h | h
      · subst h
        dsimp only at he
        exact he
      · exact h2 d h

theorem chainFixedPoint (rows : List Nat) (hexCols : Nat) (raw : Dict String)
    (depth target : String → Nat)
    (Hstep : ∀ n ∈ gridCells "B" rows hexCols,
      (∀ ρ, parse_b_input ((dget raw n).getD "") ρ = target n)
      ∨ (∃ m, m ∈ gridCells "B" rows hexCols ∧ depth m < depth n ∧ target m = target n ∧
          ∀ ρ, parse_b_input ((dget raw n).getD "") ρ = vget ρ m &&& 255))
    (Htb : ∀ n ∈ gridCells "B" rows hexCols, target n ≤ 255)
    (st : Dict Nat)
    (hfp : ∀ c ∈ gridCells "B" rows hexCols,
      parse_b_input ((dget raw c).getD "") st = vget st c) :
    ∀ n ∈ gridCells "B" rows hexCols, vget st n = target n := by
  have aux : ∀ k n, n ∈ gridCells "B" rows hexCols → depth n ≤ k → vget st n = target n := by
    intro k
    induction k with
    | zero =>
      intro n hn hd
      rcases Hstep n hn with hlit | ⟨m, hm, hdm, -, -⟩
      · rw [← hfp n hn, hlit st]
      · omega
    | succ k ih =>
      intro n hn hd
      rcases Hstep n hn with hlit | ⟨m, hm, hdm, htm, href⟩
      · rw [← hfp n hn, hlit st]
      · rw [← hfp n hn, href st, ih m hm (by omega),
          and255_of_lt (by have := Htb m hm; omega), htm]
  exact fun n hn => aux (depth n) n hn (Nat.le_refl _)

theorem chainLoop (rows : List Nat) (hexCols : Nat) (raw : Dict String)
    (depth target : String → Nat)
    (Hstep : ∀ n ∈ gridCells "B" rows hexCols,
      (∀ ρ, parse_b_input ((dget raw n).getD "") ρ = target n)
      ∨ (∃ m, m ∈ gridCells "B" rows hexCols ∧ depth m < depth n ∧ target m = target n ∧
          ∀ ρ, parse_b_input ((dget raw n).getD "") ρ = vget ρ m &&& 255))
    (Htb : ∀ n ∈ gridCells "B" rows hexCols, target n ≤ 255)
    (D : Nat) (HD : ∀ n ∈ gridCells "B" rows hexCols, depth n < D) :
    ∀ (fuel r : Nat) (st : Dict Nat), D ≤ r + fuel →
      (∀ n ∈ gridCells "B" rows hexCols, depth n < r → vget st n = target n) →
      ∀ n ∈ gridCells "B" rows hexCols,
        vget (bLoop rows hexCols raw fuel st) n = target n := by
  intro fuel
  induction fuel with
  | zero =>
    intro r st hle hP n hn
    exact hP n hn (by have := HD n hn; omega)
  | succ fuel ih =>
    intro r st hle hP n hn
    have heq : bLoop rows hexCols raw (fuel + 1) st
        = match bRound rows hexCols raw st with
          | (s, true) => bLoop rows hexCols raw fuel s
          | (s, false) => s := rfl
    rcases hR : bRound rows hexCols raw st with ⟨st2, ch⟩
    rw [hR] at heq
    rw [heq]
    have hfold : (gridCells "B" rows hexCols).foldl (bStep raw) (st, false) = (st2, ch) := hR
    cases ch with
    | true =>
      have hround := chainFold rows hexCols raw depth target Hstep Htb r
        (gridCells "B" rows hexCols) (fun x hx => hx) st false hP
        (fun n hn hd hmem => absurd hn hmem)
      rw [hfold] at hround
      have hP2 : ∀ n ∈ gridCells "B" rows hexCols, depth n < r + 1 → vget st2 n = target n :=
        fun n hn hd => hround.2 n hn (by omega)
      exact ih (r + 1) st2 (by omega) hP2 n hn
    | false =>
      have hflag : ((gridCells "B" rows hexCols).foldl (bStep raw) (st, false)).2 = false := by
        rw [hfold]
      rcases foldl_noChange raw (gridCells "B" rows hexCols) st hflag with ⟨hst, hfix⟩
      rw [hfold] at hst
      dsimp only at hst
      subst hst
      exact chainFixedPoint rows hexCols raw depth target Hstep Htb st2 hfix n hn

theorem parse_bare (s : String) (hb : bareNameOK s) (ρ : Dict Nat) :
    parse_b_input s ρ = vget ρ s &&& 255 := by
  obtain ⟨h1, h2, h3, h4, h5⟩ := hb
  rw [parse_b_input_of_bare s ρ (by rw [h1]; exact h5) (by rw [h1]; exact h3)
    (by rw [h1]; exact h4)]
  rw [h1, h2]
  rfl

theorem parse_hexPairStr {v : Nat} (hv : v < 256) (ρ : Dict Nat) :
    parse_b_input (hexPairStr v) ρ = v := by
  have hf : ∀ d, d < 16 → isPyWs (hexDig d) = false ∧ opChar (hexDig d) = false
      ∧ isHexC (hexDig d) = true ∧ hexVal (hexDig d) = d := by decide
  have h1 := hf (v / 16) (by omega)
  have h2 := hf (v % 16) (by omega)
  have hstr : pyStrip (hexPairStr v).data = [hexDig (v / 16), hexDig (v % 16)] := by
    refine pyStrip_no_ws ?_
    intro c hc
    have hc2 : c ∈ [hexDig (v / 16), hexDig (v % 16)] := hc
    simp only [List.mem_cons, List.not_mem_nil, or_false] at hc2
    rcases hc2 with rfl | rfl
    · exact h1.1
    · exact h2.1
  rw [parse_b_input_of_two (hexPairStr v) ρ
    (by rw [hstr]; simp [hasOp, h1.2.1, h2.2.1]) (by rw [hstr]; rfl)]
  rw [hstr, parseHexPair_of_hex h1.2.2.1 h2.2.2.1, h1.2.2.2, h2.2.2.2]
  omega

/-- **C2.** Resolution of B cells is a bounded fixed-point iteration: the
round cap is 5 and a round that changes nothing stops the loop with that
round's state (first conjunct); and for every acyclic dependency chain of
depth 4 — a hex-literal seed cell and three bare-reference cells, assigned to
the four grid cells in any order — the iteration started from any prior state
ends, within the cap, with every cell holding the value that direct
substitution in dependency order produces (the seed byte `v`). -/
theorem fixed_point_chain_converges :
    (∀ rows hexCols raw st k,
      (bRound rows hexCols raw st).2 = false →
      bLoop rows hexCols raw (k + 1) st = (bRound rows hexCols raw st).1)
    ∧ (∀ v : Nat, v < 256 → ∀ n0 n1 n2 n3 : String,
        List.Perm [n0, n1, n2, n3] (gridCells "B" [1] 4) →
        ∀ st0 : Dict Nat,
          vget (update_all_var_values [1] 0 4
            [(n0, hexPairStr v), (n1, n0), (n2, n1), (n3, n2)] st0) n0 = v
          ∧ vget (update_all_var_values [1] 0 4
            [(n0, hexPairStr v), (n1, n0), (n2, n1), (n3, n2)] st0) n1 = v
          ∧ vget (update_all_var_values [1] 0 4
            [(n0, hexPairStr v), (n1, n0), (n2, n1), (n3, n2)] st0) n2 = v
          ∧ vget (update_all_var_values [1] 0 4
            [(n0, hexPairStr v), (n1, n0), (n2, n1), (n3, n2)] st0) n3 = v) := by
  constructor
  · intro rows hexCols raw st k h
    have heq : bLoop rows hexCols raw (k + 1) st
        = match bRound rows hexCols raw st with
          | (s, true) => bLoop rows hexCols raw k s
          | (s, false) => s := rfl
    rcases hR : bRound rows hexCols raw st with ⟨st2, ch⟩
    rw [hR] at h heq
    dsimp only at h
    subst h
    rw [heq]
  · intro v hv n0 n1 n2 n3 hperm st0
    have hmem : ∀ x ∈ ([n0, n1, n2, n3] : List String), x ∈ gridCells "B" [1] 4 :=
      fun x hx => hperm.mem_iff.mp hx
    have hnodup : ([n0, n1, n2, n3] : List String).Nodup :=
      hperm.nodup_iff.mpr (by decide)
    have h01 : n0 ≠ n1 := by intro h; subst h; simp at hnodup
    have h02 : n0 ≠ n2 := by intro h; subst h; simp at hnodup
    have h03 : n0 ≠ n3 := by intro h; subst h; simp at hnodup
    have h12 : n1 ≠ n2 := by intro h; subst h; simp at hnodup
    have h13 : n1 ≠ n3 := by intro h; subst h; simp at hnodup
    have h23 : n2 ≠ n3 := by intro h; subst h; simp at hnodup
    have hbare : ∀ x ∈ gridCells "B" [1] 4, bareNameOK x := by
      have hcells : gridCells "B" [1] 4 = ["B0101", "B0102", "B0103", "B0104"] := by decide
      rw [hcells]
      intro x hx
      simp only [List.mem_cons, List.not_mem_nil, or_false] at hx
      rcases hx with rfl | rfl | rfl | rfl <;>
        exact ⟨by decide, by decide, by decide, by decide, by decide⟩
    have hget0 : dget [(n0, hexPairStr v), (n1, n0), (n2, n1), (n3, n2)] n0
        = some (hexPairStr v) := by simp [dget]
    have hget1 : dget [(n0, hexPairStr v), (n1, n0), (n2, n1), (n3, n2)] n1
        = some n0 := by simp [dget, h01]
    have hget2 : dget [(n0, hexPairStr v), (n1, n0), (n2, n1), (n3, n2)] n2
        = some n1 := by simp [dget, h02, h12]
    have hget3 : dget [(n0, hexPairStr v), (n1, n0), (n2, n1), (n3, n2)] n3
        = some n2 := by simp [dget, h03, h13, h23]
    have hm0 : n0 ∈ gridCells "B" [1] 4 := hmem n0 (by simp)
    have hm1 : n1 ∈ gridCells "B" [1] 4 := hmem n1 (by simp)
    have hm2 : n2 ∈ gridCells "B" [1] 4 := hmem n2 (by simp)
    have hm3 : n3 ∈ gridCells "B" [1] 4 := hmem n3 (by simp)
    have hd0 : (fun s => if s = n0 then 0 else if s = n1 then 1 else
        if s = n2 then 2 else 3 : String → Nat) n0 = 0 := by simp
    have hd1 : (fun s => if s = n0 then 0 else if s = n1 then 1 else
        if s = n2 then 2 else 3 : String → Nat) n1 = 1 := by simp [Ne.symm h01]
    have hd2 : (fun s => if s = n0 then 0 else if s = n1 then 1 else
        if s = n2 then 2 else 3 : String → Nat) n2 = 2 := by
      simp [Ne.symm h02, Ne.symm h12]
    have hd3 : (fun s => if s = n0 then 0 else if s = n1 then 1 else
        if s = n2 then 2 else 3 : String → Nat) n3 = 3 := by
      simp [Ne.symm h03, Ne.symm h13, Ne.symm h23]
    have main := chainLoop [1] 4 [(n0, hexPairStr v), (n1, n0), (n2, n1), (n3, n2)]
      (fun s => if s = n0 then 0 else if s = n1 then 1 else if s = n2 then 2 else 3)
      (fun _ => v)
      (by
        intro n hn
        have hn4 : n ∈ ([n0, n1, n2, n3] : List String) := hperm.mem_iff.mpr hn
        simp only [List.mem_cons, List.not_mem_nil, or_false] at hn4
        rcases hn4 with rfl | rfl | rfl | rfl
        · left
          intro ρ
          rw [hget0]
          exact parse_hexPairStr hv ρ
        · right
          refine ⟨n0, hm0, ?_, rfl, ?_⟩
          · rw [hd0, hd1]
            omega
          · intro ρ
            rw [hget1]
            exact parse_bare n0 (hbare n0 hm0) ρ
        · right
          refine ⟨n1, hm1, ?_, rfl, ?_⟩
          · rw [hd1, hd2]
            omega
          · intro ρ
            rw [hget2]
            exact parse_bare n1 (hbare n1 hm1) ρ
        · right
          refine ⟨n2, hm2, ?_, rfl, ?_⟩
          · rw [hd2, hd3]
            omega
          · intro ρ
            rw [hget3]
            exact parse_bare n2 (hbare n2 hm2) ρ)
      (fun n _ => by show v ≤ 255; omega)
      4
      (by
        intro n hn
        dsimp only
        split_ifs <;> omega)
      5 0 (updateA [1] 0 [(n0, hexPairStr v), (n1, n0), (n2, n1), (n3, n2)] st0)
      (by omega)
      (fun n hn hd => absurd hd (by omega))
    exact ⟨main n0 hm0, main n1 hm1, main n2 hm2, main n3 hm3⟩

theorem fixed_point_chain_converges_witness :
    vget (update_all_var_values [1] 0 4
      [("B0104", hexPairStr 26), ("B0103", "B0104"), ("B0102", "B0103"),
        ("B0101", "B0102")] []) "B0104" = 26
    ∧ vget (update_all_var_values [1] 0 4
      [("B0104", hexPairStr 26), ("B0103", "B0104"), ("B0102", "B0103"),
        ("B0101", "B0102")] []) "B0103" = 26
    ∧ vget (update_all_var_values [1] 0 4
      [("B0104", hexPairStr 26), ("B0103", "B0104"), ("B0102", "B0103"),
        ("B0101", "B0102")] []) "B0102" = 26
    ∧ vget (update_all_var_values [1] 0 4
      [("B0104", hexPairStr 26), ("B0103", "B0104"), ("B0102", "B0103"),
        ("B0101", "B0102")] []) "B0101" = 26 :=
  fixed_point_chain_converges.2 26 (by decide) "B0104" "B0103" "B0102" "B0101"
    (by decide) []
